import Mathlib

/-!
Shallow embedding of `src/main.py` (DNSPod record monitor).

The Python script keeps a module-level dict `previous_records_state`
(the Baseline, initialized to the empty dict `{}` at line 10), fetches the
record list, builds the current snapshot (lines 128-139), and compares it
to the baseline (lines 141-182), sending one Telegram message per changed
subdomain name.

Python dicts are modelled as association lists `List (String × ...)`
preserving insertion order; Python dict equality (which is insertion-order
independent but order-sensitive in the list values) is modelled by
`dictEqb`.  Python `sorted(l, key=lambda x: (x['type'], x['value']))`
(a stable sort by the lexicographic pair of strings) is modelled by
Mathlib's stable `List.insertionSort` with the relation `recLe`.
Iteration over the Python set `set(prev.keys()) | set(curr.keys())`
(line 153) has an unspecified order; it is modelled by
`(keys prev ++ keys current).dedup`, a duplicate-free enumeration of the
same union — every claim below is insensitive to this order.
-/

namespace DnspodMonitor

/-- One DNS record entry `{"type": ..., "value": ...}` as built at
lines 133-136 of `main.py`. -/
structure RecordEntry where
  type : String
  value : String
deriving DecidableEq

/-- A raw record as returned by the DNSPod API, restricted to the three
fields the script reads (`name`, `type`, `value`); other fields are
ignored by the code. -/
structure RawRecord where
  name : String
  type : String
  value : String
deriving DecidableEq

/-- A raw record as a partial map: any of the three fields the script
reads may be missing, in which case the Python subscript `record[...]`
raises `KeyError`.  Used to model lines 130-139 faithfully for records
that violate the upstream contract. -/
structure RawRecordOpt where
  name : Option String
  type : Option String
  value : Option String
deriving DecidableEq

/-- A snapshot: the Python dict mapping subdomain name to its list of
record entries, as an insertion-ordered association list. -/
abbrev Snapshot := List (String × List RecordEntry)

/-- Lookup in a snapshot dict: first entry with the given key. -/
def dictGet : Snapshot → String → Option (List RecordEntry)
  | [], _ => none
  | (k, v) :: rest, key => if k = key then some v else dictGet rest key

/-- The key list of a snapshot dict (its `keys()`). -/
def keys (s : Snapshot) : List String := s.map Prod.fst

/-- `s.get(name, [])` at lines 157-158 of `main.py`. -/
def getD (s : Snapshot) (k : String) : List RecordEntry := (dictGet s k).getD []

/-- Python dict equality (`current_records_state != previous_records_state`,
line 149): same key set and, per key, equal (order-sensitive) record
lists.  Insertion order of the dict itself does not matter. -/
def dictEqb (s t : Snapshot) : Bool :=
  (keys s ++ keys t).all (fun k => decide (dictGet s k = dictGet t k))

/-- Lines 137-139 of `main.py`: create the key with `[]` if absent, then
`append` the record entry.  In the association-list model: append `v` to
the (unique) existing entry for `k`, or append a new `(k, [v])` entry at
the end (Python dicts preserve insertion order). -/
def dictAppend : Snapshot → String → RecordEntry → Snapshot
  | [], k, v => [(k, [v])]
  | (a, w) :: rest, k, v =>
    if a = k then (a, w ++ [v]) :: rest else (a, w) :: dictAppend rest k v

/-- The `{type, value}` projection of a raw record (lines 133-136). -/
def toEntry (r : RawRecord) : RecordEntry := ⟨r.type, r.value⟩

/-- The snapshot builder, lines 128-139 of `main.py`: fold over the raw
record list, keeping records whose `name` is in the monitored set and
grouping them by name (duplicates preserved, in input order). -/
def build (raws : List RawRecord) (mon : List String) : Snapshot :=
  raws.foldl (fun state r => if r.name ∈ mon then dictAppend state r.name (toEntry r) else state)
    []

/-- Lines 128-139 of `main.py` on partial records: each Python subscript
`record['name']` / `record['type']` / `record['value']` is a fallible
lookup; a missing key aborts the whole build (`KeyError` propagates).
`record['name']` (line 131) is read for every record; `type` and `value`
(lines 134-135) only when the name is in the monitored set. -/
def build_opt (mon : List String) : Snapshot → List RawRecordOpt → Option Snapshot
  | state, [] => some state
  | state, r :: rest =>
    match r.name with
    | none => none
    | some n =>
      if n ∈ mon then
        match r.type, r.value with
        | some t, some v => build_opt mon (dictAppend state n ⟨t, v⟩) rest
        | _, _ => none
      else build_opt mon state rest

/-- Python string comparison: lexicographic on the code-point sequence. -/
def strLt (s t : String) : Prop := List.Lex (· < ·) s.data t.data

instance : DecidableRel strLt := fun s t =>
  inferInstanceAs (Decidable (List.Lex (· < ·) s.data t.data))

/-- The sort key comparison of `sorted(l, key=lambda x: (x['type'], x['value']))`
(lines 107 and 157-158): the non-strict lexicographic order on the pair
of strings (Python tuple comparison). -/
def recLe (a b : RecordEntry) : Prop :=
  strLt a.type b.type ∨ (a.type = b.type ∧ (strLt a.value b.value ∨ a.value = b.value))

instance : DecidableRel recLe := fun a b =>
  inferInstanceAs
    (Decidable (strLt a.type b.type ∨ (a.type = b.type ∧ (strLt a.value b.value ∨ a.value = b.value))))

/-- Python's `sorted` by key `(type, value)`: a stable sort by `recLe`. -/
def sortRecords (l : List RecordEntry) : List RecordEntry := List.insertionSort recLe l

/-- One reported change for one subdomain name: the data rendered into
the notification message at lines 165-170 (name plus the two sorted
record lists). -/
structure ChangeEvent where
  subdomainName : String
  oldRecords : List RecordEntry
  newRecords : List RecordEntry
deriving DecidableEq

/-- The per-name comparison of lines 155-177 of `main.py`: sort both
sides' record lists for `name` (absent side contributing `[]` through
`.get(name, [])`), and if they differ produce the change data rendered
into the notification. -/
def eventFor (prev current : Snapshot) (name : String) : Option ChangeEvent :=
  let old_list := sortRecords (getD prev name)
  let new_list := sortRecords (getD current name)
  if old_list = new_list then none
  else some { subdomainName := name, oldRecords := old_list, newRecords := new_list }

/-- Lines 141-182 of `main.py`, with the notification side effect
abstracted away: given the previous state (Baseline) and the freshly
built current state, return the list of emitted change events and the
value of `previous_records_state` after the call. -/
def detect (prev current : Snapshot) : List ChangeEvent × Snapshot :=
  if prev = [] then
    ([], current)
  else if dictEqb current prev then
    ([], prev)
  else
    (((keys prev ++ keys current).dedup).filterMap (eventFor prev current), current)

/-- The Python truthiness test `not previous_records_state` at line 142
is false exactly when the dict is non-empty: the state machine's
Initialized state is "the Baseline dict is non-empty". -/
def Initialized (s : Snapshot) : Prop := s ≠ []

instance (s : Snapshot) : Decidable (Initialized s) :=
  inferInstanceAs (Decidable (s ≠ []))

/-- Outcome of one Telegram `sendMessage` HTTP call as observed by
`send_telegram_message` (lines 45-62): a network error (caught at
line 61) or a response with an HTTP status code and the API `ok` flag. -/
inductive TgResponse where
  | netError : TgResponse
  | response (status : Nat) (okFlag : Bool) : TgResponse
deriving DecidableEq

/-- `send_telegram_message`, lines 45-62: both failure kinds (network
error, non-success response) are caught/handled inside the function,
which always returns; the returned Bool records whether the success
log line (line 58) was printed. -/
def send_telegram_message : TgResponse → Bool
  | .netError => false
  | .response status okFlag => decide (status = 200) && okFlag

/-- Observable outcome of one check cycle: the emitted change events,
the notification attempts (each event paired with its send outcome),
and the value of `previous_records_state` afterwards. -/
structure CycleResult where
  events : List ChangeEvent
  notified : List (ChangeEvent × Bool)
  newBaseline : Snapshot
deriving DecidableEq

/-- Lines 141-182 of `main.py` including the notification side effect:
for each changed name (in iteration order) a message is built and
`send_telegram_message` is called; `notifier` gives the Telegram API
outcome for each attempted notification. -/
def runDetect (notifier : ChangeEvent → TgResponse) (prev current : Snapshot) : CycleResult :=
  if prev = [] then
    ⟨[], [], current⟩
  else if dictEqb current prev then
    ⟨[], [], prev⟩
  else
    let r := ((keys prev ++ keys current).dedup).foldl
      (fun (acc : List ChangeEvent × List (ChangeEvent × Bool)) name =>
        match eventFor prev current name with
        | none => acc
        | some ev => (acc.1 ++ [ev], acc.2 ++ [(ev, send_telegram_message (notifier ev))]))
      ([], [])
    ⟨r.1, r.2, current⟩

/-- The parsed outcome of the `Record.List` HTTP call as observed by
`get_dnspod_records` (lines 64-98): a network error (line 93), a non-2xx
HTTP status (`raise_for_status`, line 81), an unparsable body (line 96),
or a parsed body carrying the DNSPod status code and the record list. -/
inductive DnspodResponse where
  | netError : DnspodResponse
  | httpError : DnspodResponse
  | parseError : DnspodResponse
  | apiStatus (code : String) (records : List RawRecord) : DnspodResponse
deriving DecidableEq

/-- `get_dnspod_records`, lines 64-98: every failure kind collapses to
`None`; records are returned only when the DNSPod status code is `"1"`. -/
def get_dnspod_records : DnspodResponse → Option (List RawRecord)
  | .netError => none
  | .httpError => none
  | .parseError => none
  | .apiStatus code records => if code = "1" then some records else none

/-- `check_for_changes`, lines 110-182: fetch, abort on failure
(lines 124-126) leaving the state untouched, otherwise build the current
snapshot and run the comparison. -/
def check_for_changes (notifier : ChangeEvent → TgResponse) (resp : DnspodResponse)
    (mon : List String) (prev : Snapshot) : CycleResult :=
  match get_dnspod_records resp with
  | none => ⟨[], [], prev⟩
  | some raws => runDetect notifier prev (build raws mon)

/-- The Baseline invariant of claim C10: every stored entry has a
monitored key and a non-empty record list. -/
def Inv (mon : List String) (s : Snapshot) : Prop :=
  ∀ p ∈ s, p.1 ∈ mon ∧ p.2 ≠ []

instance (mon : List String) (s : Snapshot) : Decidable (Inv mon s) :=
  inferInstanceAs (Decidable (∀ p ∈ s, p.1 ∈ mon ∧ p.2 ≠ []))

/-- Replace the record list stored for one name of a snapshot (used to
state the order-insensitivity claim C4). -/
def setEntry : Snapshot → String → List RecordEntry → Snapshot
  | [], _, _ => []
  | (a, w) :: rest, k, l => (a, if a = k then l else w) :: setEntry rest k l

/-- Specification view of the builder used to state C6: the records of
the raw list whose name is exactly `k`, projected to `{type, value}` in
input order, provided `k` is monitored. -/
def matchingEntries (raws : List RawRecord) (mon : List String) (k : String) : List RecordEntry :=
  if k ∈ mon then (raws.filter (fun r => decide (r.name = k))).map toEntry else []

/-! ## Order lemmas for the sort key -/

theorem strLt_trans {s t u : String} (h1 : strLt s t) (h2 : strLt t u) : strLt s u :=
  trans_of (List.Lex (· < · : Char → Char → Prop)) h1 h2

theorem strLt_asymm {s t : String} (h : strLt s t) : ¬ strLt t s :=
  asymm_of (List.Lex (· < · : Char → Char → Prop)) h

theorem strLt_trichotomy (s t : String) : strLt s t ∨ s = t ∨ strLt t s := by
  rcases trichotomous_of (List.Lex (· < · : Char → Char → Prop)) s.data t.data with h | h | h
  · exact Or.inl h
  · exact Or.inr (Or.inl (String.ext h))
  · exact Or.inr (Or.inr h)

theorem strLt_irrefl (s : String) : ¬ strLt s s := fun h => strLt_asymm h h

instance : IsTotal RecordEntry recLe where
  total a b := by
    rcases strLt_trichotomy a.type b.type with h | h | h
    · exact Or.inl (Or.inl h)
    · rcases strLt_trichotomy a.value b.value with hv | hv | hv
      · exact Or.inl (Or.inr ⟨h, Or.inl hv⟩)
      · exact Or.inl (Or.inr ⟨h, Or.inr hv⟩)
      · exact Or.inr (Or.inr ⟨h.symm, Or.inl hv⟩)
    · exact Or.inr (Or.inl h)

instance : IsTrans RecordEntry recLe where
  trans a b c hab hbc := by
    rcases hab with hab | ⟨hteq, hvab⟩
    · rcases hbc with hbc | ⟨hteq, _⟩
      · exact Or.inl (strLt_trans hab hbc)
      · exact Or.inl (hteq ▸ hab)
    · rcases hbc with hbc | ⟨hteq2, hvbc⟩
      · exact Or.inl (hteq ▸ hbc)
      · refine Or.inr ⟨hteq.trans hteq2, ?_⟩
        rcases hvab with hvab | hvab
        · rcases hvbc with hvbc | hvbc
          · exact Or.inl (strLt_trans hvab hvbc)
          · exact Or.inl (hvbc ▸ hvab)
        · rcases hvbc with hvbc | hvbc
          · exact Or.inl (hvab ▸ hvbc)
          · exact Or.inr (hvab.trans hvbc)

instance : IsAntisymm RecordEntry recLe where
  antisymm a b hab hba := by
    rcases hab with hab | ⟨hteq, hvab⟩
    · rcases hba with hba | ⟨hteq, _⟩
      · exact absurd hba (strLt_asymm hab)
      · exact absurd (hteq ▸ hab) (strLt_irrefl b.type)
    · rcases hba with hba | ⟨_, hvba⟩
      · exact absurd (hteq ▸ hba) (strLt_irrefl a.type)
      · have hveq : a.value = b.value := by
          rcases hvab with hvab | hvab
          · rcases hvba with hvba | hvba
            · exact absurd hvba (strLt_asymm hvab)
            · exact absurd (hvba ▸ hvab) (strLt_irrefl a.value)
          · exact hvab
        cases a
        cases b
        simp_all

theorem sortRecords_sorted (l : List RecordEntry) : List.Sorted recLe (sortRecords l) :=
  List.sorted_insertionSort recLe l

theorem sortRecords_perm (l : List RecordEntry) : (sortRecords l).Perm l :=
  List.perm_insertionSort recLe l

/-- Canonicalization is permutation-invariant: the sorted form of a
record list depends only on its multiset of entries. -/
theorem sortRecords_eq_of_perm {l₁ l₂ : List RecordEntry} (h : l₁.Perm l₂) :
    sortRecords l₁ = sortRecords l₂ :=
  List.eq_of_perm_of_sorted ((sortRecords_perm l₁).trans (h.trans (sortRecords_perm l₂).symm))
    (sortRecords_sorted l₁) (sortRecords_sorted l₂)

/-! ## Dict lemmas -/

theorem dictGet_eq_none_of_not_mem {s : Snapshot} {k : String} (h : k ∉ keys s) :
    dictGet s k = none := by
  induction s with
  | nil => rfl
  | cons p rest ih =>
    obtain ⟨a, w⟩ := p
    simp only [keys, List.map_cons, List.mem_cons, not_or] at h
    rw [dictGet, if_neg (fun hh => h.1 hh.symm)]
    exact ih h.2

theorem mem_keys_of_dictGet_some {s : Snapshot} {k : String} {l : List RecordEntry}
    (h : dictGet s k = some l) : k ∈ keys s := by
  by_contra hk
  rw [dictGet_eq_none_of_not_mem hk] at h
  exact Option.noConfusion h

theorem dictEqb_eq_true_iff {s t : Snapshot} :
    dictEqb s t = true ↔ ∀ k, dictGet s k = dictGet t k := by
  constructor
  · intro h k
    rw [dictEqb, List.all_eq_true] at h
    by_cases hk : k ∈ keys s ++ keys t
    · exact of_decide_eq_true (h k hk)
    · rw [List.mem_append] at hk
      push_neg at hk
      rw [dictGet_eq_none_of_not_mem hk.1, dictGet_eq_none_of_not_mem hk.2]
  · intro h
    rw [dictEqb, List.all_eq_true]
    intro k _
    exact decide_eq_true (h k)

theorem dictGet_append (s t : Snapshot) (j : String) :
    dictGet (s ++ t) j = match dictGet s j with
      | some v => some v
      | none => dictGet t j := by
  induction s with
  | nil => rfl
  | cons p rest ih =>
    obtain ⟨a, w⟩ := p
    by_cases hp : a = j
    · simp [dictGet, hp]
    · simp only [List.cons_append, dictGet, if_neg hp]
      exact ih

theorem dictGet_dictAppend (s : Snapshot) (k : String) (v : RecordEntry) (j : String) :
    dictGet (dictAppend s k v) j =
      if j = k then some ((dictGet s k).getD [] ++ [v]) else dictGet s j := by
  induction s with
  | nil =>
    by_cases hjk : j = k
    · subst hjk
      simp [dictAppend, dictGet]
    · have hkj : ¬ k = j := fun hh => hjk hh.symm
      simp [dictAppend, dictGet, hjk, hkj]
  | cons p rest ih =>
    obtain ⟨a, w⟩ := p
    by_cases hak : a = k
    · subst hak
      by_cases hja : j = a
      · subst hja
        simp [dictAppend, dictGet]
      · have haj : ¬ a = j := fun hh => hja hh.symm
        simp [dictAppend, dictGet, hja, haj]
    · by_cases hja : j = a
      · subst hja
        have hjk : ¬ j = k := hak
        simp [dictAppend, dictGet, hak, hjk]
      · have haj : ¬ a = j := fun hh => hja hh.symm
        simpa [dictAppend, dictGet, hak, haj] using ih

theorem dictGet_setEntry (s : Snapshot) (k : String) (l : List RecordEntry) (j : String) :
    dictGet (setEntry s k l) j =
      if j = k then (dictGet s j).map (fun _ => l) else dictGet s j := by
  induction s with
  | nil => simp [setEntry, dictGet]
  | cons p rest ih =>
    obtain ⟨a, w⟩ := p
    by_cases hak : a = k
    · subst hak
      by_cases hja : j = a
      · subst hja
        simp [setEntry, dictGet]
      · have haj : ¬ a = j := fun hh => hja hh.symm
        simpa [setEntry, dictGet, hja, haj] using ih
    · by_cases hja : j = a
      · subst hja
        have hjk : ¬ j = k := hak
        simp [setEntry, dictGet, hak, hjk]
      · have haj : ¬ a = j := fun hh => hja hh.symm
        simpa [setEntry, dictGet, hak, haj] using ih

/-! ## Builder lemmas -/

theorem build_foldl (mon : List String) (k : String) :
    ∀ (raws : List RawRecord) (s : Snapshot),
      dictGet
        (raws.foldl
          (fun state r => if r.name ∈ mon then dictAppend state r.name (toEntry r) else state) s)
        k =
      match dictGet s k with
      | some l0 => some (l0 ++ matchingEntries raws mon k)
      | none =>
          if matchingEntries raws mon k = [] then none else some (matchingEntries raws mon k) := by
  intro raws
  induction raws with
  | nil =>
    intro s
    cases hg : dictGet s k with
    | some l0 => simp [matchingEntries, hg]
    | none => simp [matchingEntries, hg]
  | cons r rs ih =>
    intro s
    rw [List.foldl_cons]
    by_cases hrm : r.name ∈ mon
    · rw [if_pos hrm]
      rw [ih (dictAppend s r.name (toEntry r))]
      by_cases hrk : r.name = k
      · subst hrk
        have hkm : r.name ∈ mon := hrm
        rw [dictGet_dictAppend s r.name (toEntry r) r.name, if_pos rfl]
        have hme : matchingEntries (r :: rs) mon r.name =
            toEntry r :: matchingEntries rs mon r.name := by
          simp [matchingEntries, hkm, List.filter_cons]
        rw [hme]
        cases hg : dictGet s r.name with
        | some l0 => simp [hg, List.append_assoc]
        | none => simp [hg]
      · rw [dictGet_dictAppend s r.name (toEntry r) k, if_neg (fun hh => hrk hh.symm)]
        have hme : matchingEntries (r :: rs) mon k = matchingEntries rs mon k := by
          by_cases hkm : k ∈ mon
          · simp [matchingEntries, hkm, List.filter_cons, hrk]
          · simp [matchingEntries, hkm]
        rw [hme]
    · rw [if_neg hrm]
      rw [ih s]
      have hme : matchingEntries (r :: rs) mon k = matchingEntries rs mon k := by
        by_cases hkm : k ∈ mon
        · have hrk : ¬ r.name = k := fun hh => hrm (hh ▸ hkm)
          simp [matchingEntries, hkm, List.filter_cons, hrk]
        · simp [matchingEntries, hkm]
      rw [hme]

theorem Inv_dictAppend {mon : List String} {s : Snapshot} {k : String} (v : RecordEntry)
    (hk : k ∈ mon) (h : Inv mon s) : Inv mon (dictAppend s k v) := by
  induction s with
  | nil =>
    intro p hp
    rw [dictAppend, List.mem_singleton] at hp
    subst hp
    exact ⟨hk, by simp⟩
  | cons q rest ih =>
    obtain ⟨a, w⟩ := q
    intro p hp
    rw [dictAppend] at hp
    by_cases hak : a = k
    · rw [if_pos hak, List.mem_cons] at hp
      rcases hp with hp | hp
      · subst hp
        exact ⟨hak ▸ hk, by simp⟩
      · exact h p (List.mem_cons_of_mem _ hp)
    · rw [if_neg hak, List.mem_cons] at hp
      rcases hp with hp | hp
      · subst hp
        exact h (a, w) (List.mem_cons_self _ _)
      · exact ih (fun q hq => h q (List.mem_cons_of_mem _ hq)) p hp

/-- The builder's output always satisfies the Baseline invariant. -/
theorem Inv_build (raws : List RawRecord) (mon : List String) : Inv mon (build raws mon) := by
  rw [build]
  have hgen : ∀ (rs : List RawRecord) (s : Snapshot), Inv mon s →
      Inv mon
        (rs.foldl
          (fun state r => if r.name ∈ mon then dictAppend state r.name (toEntry r) else state)
          s) := by
    intro rs
    induction rs with
    | nil => exact fun s hs => hs
    | cons r rest ih =>
      intro s hs
      rw [List.foldl_cons]
      by_cases hrm : r.name ∈ mon
      · rw [if_pos hrm]
        exact ih _ (Inv_dictAppend (toEntry r) hrm hs)
      · rw [if_neg hrm]
        exact ih _ hs
  exact hgen raws [] (fun p hp => absurd hp (List.not_mem_nil p))

/-- The partial-record builder fails exactly when some record lacks
`name`, or has a monitored name and lacks `type` or `value`. -/
theorem build_opt_eq_none_iff (mon : List String) :
    ∀ (raws : List RawRecordOpt) (s : Snapshot),
      build_opt mon s raws = none ↔
        ∃ r ∈ raws, r.name = none ∨
          ∃ n, r.name = some n ∧ n ∈ mon ∧ (r.type = none ∨ r.value = none) := by
  intro raws
  induction raws with
  | nil =>
    intro s
    simp [build_opt]
  | cons r rest ih =>
    intro s
    cases hn : r.name with
    | none =>
      simp only [build_opt, hn, List.mem_cons]
      constructor
      · intro _
        exact ⟨r, Or.inl rfl, Or.inl hn⟩
      · intro _
        exact trivial
    | some n =>
      by_cases hm : n ∈ mon
      · cases ht : r.type with
        | none =>
          simp only [build_opt, hn, if_pos hm, ht]
          constructor
          · intro _
            exact ⟨r, List.mem_cons_self _ _, Or.inr ⟨n, hn, hm, Or.inl ht⟩⟩
          · intro _
            exact trivial
        | some t =>
          cases hv : r.value with
          | none =>
            simp only [build_opt, hn, if_pos hm, ht, hv]
            constructor
            · intro _
              exact ⟨r, List.mem_cons_self _ _, Or.inr ⟨n, hn, hm, Or.inr hv⟩⟩
            · intro _
              exact trivial
          | some v =>
            rw [build_opt, hn]
            simp only [if_pos hm, ht, hv]
            rw [ih (dictAppend s n ⟨t, v⟩)]
            constructor
            · intro ⟨r2, hr2, hbad⟩
              exact ⟨r2, List.mem_cons_of_mem _ hr2, hbad⟩
            · intro ⟨r2, hr2, hbad⟩
              rcases List.mem_cons.mp hr2 with hr2 | hr2
              · subst hr2
                rcases hbad with hbad | ⟨n2, hn2, _, hbad⟩
                · rw [hn] at hbad
                  exact Option.noConfusion hbad
                · rw [hn] at hn2
                  cases hn2
                  rcases hbad with hbad | hbad
                  · rw [ht] at hbad
                    exact Option.noConfusion hbad
                  · rw [hv] at hbad
                    exact Option.noConfusion hbad
              · exact ⟨r2, hr2, hbad⟩
      · rw [build_opt, hn]
        simp only [if_neg hm]
        rw [ih s]
        constructor
        · intro ⟨r2, hr2, hbad⟩
          exact ⟨r2, List.mem_cons_of_mem _ hr2, hbad⟩
        · intro ⟨r2, hr2, hbad⟩
          rcases List.mem_cons.mp hr2 with hr2 | hr2
          · subst hr2
            rcases hbad with hbad | ⟨n2, hn2, hn2m, _⟩
            · rw [hn] at hbad
              exact Option.noConfusion hbad
            · rw [hn] at hn2
              cases hn2
              exact absurd hn2m hm
          · exact ⟨r2, hr2, hbad⟩

/-! ## Detector lemmas -/

theorem detect_nil (current : Snapshot) : detect [] current = ([], current) := by
  simp [detect]

theorem detect_eqb {prev current : Snapshot} (h : prev ≠ [])
    (he : dictEqb current prev = true) : detect prev current = ([], prev) := by
  rw [detect, if_neg h, if_pos he]

theorem detect_not_eqb {prev current : Snapshot} (h : prev ≠ [])
    (he : dictEqb current prev = false) :
    detect prev current =
      (((keys prev ++ keys current).dedup).filterMap (eventFor prev current), current) := by
  rw [detect, if_neg h, if_neg (by simp [he])]

theorem eventFor_name {prev current : Snapshot} {name : String} {e : ChangeEvent}
    (h : eventFor prev current name = some e) : e.subdomainName = name := by
  rw [eventFor] at h
  by_cases hc : sortRecords (getD prev name) = sortRecords (getD current name)
  · rw [if_pos hc] at h
    exact Option.noConfusion h
  · rw [if_neg hc] at h
    cases h
    rfl

theorem eventFor_eq_none {prev current : Snapshot} {name : String}
    (hc : sortRecords (getD prev name) = sortRecords (getD current name)) :
    eventFor prev current name = none := by
  rw [eventFor, if_pos hc]

theorem eventFor_eq_some {prev current : Snapshot} {name : String}
    (hc : sortRecords (getD prev name) ≠ sortRecords (getD current name)) :
    eventFor prev current name =
      some ⟨name, sortRecords (getD prev name), sortRecords (getD current name)⟩ := by
  rw [eventFor, if_neg hc]

theorem filterMap_filter_name (f : String → Option ChangeEvent)
    (hf : ∀ a e, f a = some e → e.subdomainName = a) :
    ∀ (l : List String), l.Nodup → ∀ k : String,
      (l.filterMap f).filter (fun e => decide (e.subdomainName = k)) =
        if k ∈ l then (f k).toList else [] := by
  intro l
  induction l with
  | nil => simp
  | cons a rest ih =>
    intro hnd k
    rw [List.nodup_cons] at hnd
    rw [List.filterMap_cons]
    cases hfa : f a with
    | none =>
      rw [ih hnd.2 k]
      by_cases hka : k = a
      · subst hka
        simp [hfa, hnd.1]
      · simp [List.mem_cons, hka]
    | some e =>
      have hename : e.subdomainName = a := hf a e hfa
      by_cases hka : k = a
      · subst hka
        rw [List.filter_cons_of_pos (by simp [hename])]
        rw [ih hnd.2 k, if_neg hnd.1]
        simp [hfa]
      · rw [List.filter_cons_of_neg (by simp only [hename, decide_eq_true_eq]; exact fun hh => hka hh.symm)]
        rw [ih hnd.2 k]
        simp [List.mem_cons, hka]

theorem sort_ne_mem_keys {prev current : Snapshot} {k : String}
    (h : sortRecords (getD prev k) ≠ sortRecords (getD current k)) :
    k ∈ keys prev ++ keys current := by
  by_contra hk
  rw [List.mem_append, not_or] at hk
  rw [getD, getD, dictGet_eq_none_of_not_mem hk.1, dictGet_eq_none_of_not_mem hk.2] at h
  exact h rfl

/-- The central per-name characterization of the comparison loop: in the
Initialized state, the events whose name is `k` are exactly one event
(with the sorted old and new lists) when the canonicalized lists differ,
and none when they are equal. -/
theorem detect_filter_name (prev current : Snapshot) (h : prev ≠ []) (k : String) :
    ((detect prev current).1).filter (fun e => decide (e.subdomainName = k)) =
      if sortRecords (getD prev k) = sortRecords (getD current k) then []
      else [⟨k, sortRecords (getD prev k), sortRecords (getD current k)⟩] := by
  by_cases he : dictEqb current prev = true
  · rw [detect_eqb h he]
    have hk : dictGet current k = dictGet prev k := dictEqb_eq_true_iff.mp he k
    have hs : sortRecords (getD prev k) = sortRecords (getD current k) := by
      rw [getD, getD, hk]
    rw [if_pos hs]
    rfl
  · rw [detect_not_eqb h (Bool.not_eq_true _ ▸ he)]
    rw [filterMap_filter_name (eventFor prev current) (fun a e hh => eventFor_name hh)
      _ (List.nodup_dedup _) k]
    by_cases hs : sortRecords (getD prev k) = sortRecords (getD current k)
    · rw [if_pos hs, eventFor_eq_none hs]
      simp
    · rw [if_neg hs, eventFor_eq_some hs,
        if_pos (List.mem_dedup.mpr (sort_ne_mem_keys hs))]
      rfl

/-- If the comparison loop emitted no event, every name's canonicalized
lists agree between the two snapshots. -/
theorem detect_events_nil {prev current : Snapshot} (h : prev ≠ [])
    (hev : (detect prev current).1 = []) (k : String) :
    sortRecords (getD prev k) = sortRecords (getD current k) := by
  by_contra hs
  have := detect_filter_name prev current h k
  rw [hev, if_neg hs] at this
  exact List.noConfusion this.symm

/-- If some name's canonicalized lists differ and the Baseline is
non-empty, at least one event is emitted. -/
theorem detect_events_ne_nil {prev current : Snapshot} (h : prev ≠ []) {k : String}
    (hs : sortRecords (getD prev k) ≠ sortRecords (getD current k)) :
    (detect prev current).1 ≠ [] := by
  intro hev
  exact hs (detect_events_nil h hev k)

theorem runDetect_foldl (notifier : ChangeEvent → TgResponse) (prev current : Snapshot) :
    ∀ (l : List String) (e0 : List ChangeEvent) (n0 : List (ChangeEvent × Bool)),
      l.foldl
        (fun (acc : List ChangeEvent × List (ChangeEvent × Bool)) name =>
          match eventFor prev current name with
          | none => acc
          | some ev => (acc.1 ++ [ev], acc.2 ++ [(ev, send_telegram_message (notifier ev))]))
        (e0, n0) =
      (e0 ++ l.filterMap (eventFor prev current),
       n0 ++ (l.filterMap (eventFor prev current)).map
         (fun ev => (ev, send_telegram_message (notifier ev)))) := by
  intro l
  induction l with
  | nil =>
    intro e0 n0
    simp
  | cons a rest ih =>
    intro e0 n0
    rw [List.foldl_cons, List.filterMap_cons]
    cases hfa : eventFor prev current a with
    | none =>
      simp only [hfa]
      exact ih e0 n0
    | some ev =>
      simp only [hfa, List.map_cons]
      rw [ih]
      simp [List.append_assoc]

/-- The full comparison (with notification) decomposes into the pure
comparison plus one notification attempt per emitted event; the notifier
outcome influences neither the events nor the stored Baseline. -/
theorem runDetect_eq (notifier : ChangeEvent → TgResponse) (prev current : Snapshot) :
    runDetect notifier prev current =
      ⟨(detect prev current).1,
       ((detect prev current).1).map (fun ev => (ev, send_telegram_message (notifier ev))),
       (detect prev current).2⟩ := by
  by_cases h : prev = []
  · subst h
    simp [runDetect, detect]
  · by_cases he : dictEqb current prev
    · rw [runDetect, if_neg h, if_pos he, detect_eqb h he]
      simp
    · rw [runDetect, if_neg h, if_neg he,
        detect_not_eqb h (Bool.not_eq_true _ ▸ he)]
      rw [runDetect_foldl notifier prev current _ [] []]
      simp

/-! ## Claims -/

/-- C1, counterexample: the uninitialized marker is the empty dict `{}`
(line 10) tested by truthiness (line 142), which is NOT distinct from an
empty Snapshot.  A first invocation whose current snapshot is empty
(here: fetch returned zero records) sets the Baseline to the empty
snapshot; a later invocation whose current snapshot differs from that
empty Baseline emits zero ChangeEvents and silently re-initializes
instead. -/
theorem C1_counterexample :
    (detect [] (build [] ["www"])).2 = [] ∧
    dictEqb [("www", [⟨"A", "1.1.1.1"⟩])] [] = false ∧
    (detect [] [("www", [⟨"A", "1.1.1.1"⟩])]).1 = [] ∧
    (detect [] [("www", [⟨"A", "1.1.1.1"⟩])]).2 = [("www", [⟨"A", "1.1.1.1"⟩])] := by
  decide

/-- C1 (amended): the first-run branch is entered exactly when the
Baseline dict is empty; it is re-entered whenever the Baseline is the
empty snapshot.  Once the Baseline is non-empty, an invocation never
silently re-initializes: whenever the current snapshot differs
canonically from the Baseline at some name, ChangeEvents are emitted. -/
theorem C1_theorem (prev current : Snapshot) (h : Initialized prev) (k : String)
    (hs : sortRecords (getD prev k) ≠ sortRecords (getD current k)) :
    (detect prev current).1 ≠ [] :=
  detect_events_ne_nil h hs

theorem C1_witness :
    Initialized [("www", [⟨"A", "1.1.1.1"⟩])] ∧
    sortRecords (getD [("www", [⟨"A", "1.1.1.1"⟩])] "www") ≠
      sortRecords (getD ([] : Snapshot) "www") ∧
    (detect [("www", [⟨"A", "1.1.1.1"⟩])] []).1 ≠ [] :=
  ⟨by decide, by decide, C1_theorem [("www", [⟨"A", "1.1.1.1"⟩])] [] (by decide) "www" (by decide)⟩

/-- C2, counterexample: in the Initialized state the Baseline is replaced
by the current snapshot whenever the two dicts differ under Python dict
comparison (line 149), even when zero ChangeEvents are emitted: a
current snapshot that permutes one name's record list emits no events
(sorted lists agree, line 160) yet the Baseline is replaced (line 180)
by a value different from the old Baseline. -/
theorem C2_counterexample :
    ([("www", [⟨"A", "1.1.1.1"⟩, ⟨"A", "2.2.2.2"⟩])] : Snapshot) ≠ [] ∧
    (detect [("www", [⟨"A", "1.1.1.1"⟩, ⟨"A", "2.2.2.2"⟩])]
      [("www", [⟨"A", "2.2.2.2"⟩, ⟨"A", "1.1.1.1"⟩])]).1 = [] ∧
    (detect [("www", [⟨"A", "1.1.1.1"⟩, ⟨"A", "2.2.2.2"⟩])]
      [("www", [⟨"A", "2.2.2.2"⟩, ⟨"A", "1.1.1.1"⟩])]).2 ≠
      [("www", [⟨"A", "1.1.1.1"⟩, ⟨"A", "2.2.2.2"⟩])] := by
  decide

/-- C2 (amended): a detect invocation in the Initialized state that emits
zero ChangeEvents leaves the Baseline canonically unchanged: every
name's sorted record list is the same after the invocation as before.
(The stored dict itself may still be replaced by an ordering-variant of
itself when the dicts differ only in record-list order.) -/
theorem C2_theorem (prev current : Snapshot) (h : Initialized prev)
    (hev : (detect prev current).1 = []) (k : String) :
    sortRecords (getD ((detect prev current).2) k) = sortRecords (getD prev k) := by
  by_cases he : dictEqb current prev = true
  · rw [detect_eqb h he]
  · rw [detect_not_eqb h (Bool.not_eq_true _ ▸ he)]
    exact (detect_events_nil h hev k).symm

theorem C2_witness :
    Initialized [("www", [⟨"A", "1.1.1.1"⟩, ⟨"A", "2.2.2.2"⟩])] ∧
    (detect [("www", [⟨"A", "1.1.1.1"⟩, ⟨"A", "2.2.2.2"⟩])]
      [("www", [⟨"A", "2.2.2.2"⟩, ⟨"A", "1.1.1.1"⟩])]).1 = [] ∧
    sortRecords (getD ((detect [("www", [⟨"A", "1.1.1.1"⟩, ⟨"A", "2.2.2.2"⟩])]
        [("www", [⟨"A", "2.2.2.2"⟩, ⟨"A", "1.1.1.1"⟩])]).2) "www") =
      sortRecords (getD [("www", [⟨"A", "1.1.1.1"⟩, ⟨"A", "2.2.2.2"⟩])] "www") :=
  ⟨by decide, by decide,
    C2_theorem [("www", [⟨"A", "1.1.1.1"⟩, ⟨"A", "2.2.2.2"⟩])]
      [("www", [⟨"A", "2.2.2.2"⟩, ⟨"A", "1.1.1.1"⟩])] (by decide) (by decide) "www"⟩

/-- C3, counterexample: a first detect invocation over a NON-EMPTY raw
record list does set the Baseline and emits no events, but need not
transition to Initialized: when no record's name is monitored the built
snapshot is empty, the Baseline stays the empty dict, and the next
invocation re-enters the first-run branch. -/
theorem C3_counterexample :
    ([(⟨"www", "A", "1.1.1.1"⟩ : RawRecord)] ≠ []) ∧
    build [⟨"www", "A", "1.1.1.1"⟩] ["api"] = [] ∧
    (detect [] (build [⟨"www", "A", "1.1.1.1"⟩] ["api"])).1 = [] ∧
    ¬ Initialized ((detect [] (build [⟨"www", "A", "1.1.1.1"⟩] ["api"])).2) := by
  decide

/-- C3 (amended): the first detect invocation after process start (empty
Baseline) emits zero ChangeEvents, sends no notifications, and sets the
Baseline to the snapshot built from the fetched list; it transitions to
Initialized if and only if that built snapshot is non-empty (at least
one record's name is monitored). -/
theorem C3_theorem (raws : List RawRecord) (mon : List String)
    (notifier : ChangeEvent → TgResponse) :
    (detect [] (build raws mon)).1 = [] ∧
    (runDetect notifier [] (build raws mon)).notified = [] ∧
    (detect [] (build raws mon)).2 = build raws mon ∧
    (Initialized ((detect [] (build raws mon)).2) ↔ build raws mon ≠ []) := by
  rw [runDetect_eq, detect_nil]
  exact ⟨rfl, rfl, rfl, Iff.rfl⟩

/-- C4: order-insensitivity.  Replacing the record list of any name `k`
of a snapshot `S` by any permutation of it and running detect against a
Baseline equal to `S` yields no ChangeEvent for `k`: the comparison
sorts both sides by `(type, value)` before comparing. -/
theorem C4_theorem (S : Snapshot) (k : String) (l : List RecordEntry)
    (hperm : l.Perm (getD S k)) :
    ((detect S (setEntry S k l)).1).filter (fun e => decide (e.subdomainName = k)) = [] := by
  by_cases h : S = []
  · subst h
    rw [detect_nil]
    rfl
  · rw [detect_filter_name S _ h k]
    have hset : getD (setEntry S k l) k = ((dictGet S k).map (fun _ => l)).getD [] := by
      rw [getD, dictGet_setEntry, if_pos rfl]
    cases hg : dictGet S k with
    | some w =>
      have h1 : getD S k = w := by rw [getD, hg]; rfl
      have h2 : getD (setEntry S k l) k = l := by rw [hset, hg]; rfl
      rw [if_pos (by rw [h1, h2]; exact (sortRecords_eq_of_perm (h1 ▸ hperm)).symm)]
    | none =>
      have h1 : getD S k = [] := by rw [getD, hg]; rfl
      have h2 : getD (setEntry S k l) k = [] := by rw [hset, hg]; rfl
      rw [if_pos (by rw [h1, h2])]

theorem C4_witness :
    ([⟨"A", "2.2.2.2"⟩, ⟨"A", "1.1.1.1"⟩] : List RecordEntry).Perm
      (getD [("www", [⟨"A", "1.1.1.1"⟩, ⟨"A", "2.2.2.2"⟩])] "www") ∧
    ((detect [("www", [⟨"A", "1.1.1.1"⟩, ⟨"A", "2.2.2.2"⟩])]
        (setEntry [("www", [⟨"A", "1.1.1.1"⟩, ⟨"A", "2.2.2.2"⟩])] "www"
          [⟨"A", "2.2.2.2"⟩, ⟨"A", "1.1.1.1"⟩])).1).filter
      (fun e => decide (e.subdomainName = "www")) = [] :=
  ⟨List.Perm.swap (RecordEntry.mk "A" "1.1.1.1") (RecordEntry.mk "A" "2.2.2.2") [],
    C4_theorem [("www", [⟨"A", "1.1.1.1"⟩, ⟨"A", "2.2.2.2"⟩])] "www"
      [⟨"A", "2.2.2.2"⟩, ⟨"A", "1.1.1.1"⟩]
      (List.Perm.swap (RecordEntry.mk "A" "1.1.1.1") (RecordEntry.mk "A" "2.2.2.2") [])⟩

/-- C5: in the Initialized state, for every name `k` the emitted
ChangeEvents with subdomain name `k` are exactly one event — carrying
`k`, the old sorted record list and the new sorted record list (an
absent side contributing `[]`) — when the canonicalized lists differ,
and none when they are equal. -/
theorem C5_theorem (prev current : Snapshot) (h : Initialized prev) (k : String) :
    ((detect prev current).1).filter (fun e => decide (e.subdomainName = k)) =
      if sortRecords (getD prev k) = sortRecords (getD current k) then []
      else [⟨k, sortRecords (getD prev k), sortRecords (getD current k)⟩] :=
  detect_filter_name prev current h k

theorem C5_witness :
    Initialized [("a", [⟨"A", "1.1.1.1"⟩]), ("b", [⟨"A", "2.2.2.2"⟩])] ∧
    ((detect [("a", [⟨"A", "1.1.1.1"⟩]), ("b", [⟨"A", "2.2.2.2"⟩])]
        [("a", [⟨"A", "9.9.9.9"⟩]), ("b", [⟨"A", "2.2.2.2"⟩])]).1).filter
      (fun e => decide (e.subdomainName = "a")) =
      (if sortRecords (getD [("a", [⟨"A", "1.1.1.1"⟩]), ("b", [⟨"A", "2.2.2.2"⟩])] "a") =
          sortRecords (getD [("a", [⟨"A", "9.9.9.9"⟩]), ("b", [⟨"A", "2.2.2.2"⟩])] "a") then []
       else [⟨"a",
          sortRecords (getD [("a", [⟨"A", "1.1.1.1"⟩]), ("b", [⟨"A", "2.2.2.2"⟩])] "a"),
          sortRecords (getD [("a", [⟨"A", "9.9.9.9"⟩]), ("b", [⟨"A", "2.2.2.2"⟩])] "a")⟩]) :=
  ⟨by decide,
    C5_theorem [("a", [⟨"A", "1.1.1.1"⟩]), ("b", [⟨"A", "2.2.2.2"⟩])]
      [("a", [⟨"A", "9.9.9.9"⟩]), ("b", [⟨"A", "2.2.2.2"⟩])] (by decide) "a"⟩

/-- C6: the snapshot builder is the pure function that, for every name
`k`, stores exactly the `{type, value}` projections (in input order,
duplicates preserved) of the raw records named `k` — provided `k` is
monitored — and stores nothing (key absent, not an empty list) when
there is no matching record or `k` is not monitored. -/
theorem C6_theorem (raws : List RawRecord) (mon : List String) (k : String) :
    dictGet (build raws mon) k =
      if matchingEntries raws mon k = [] then none
      else some (matchingEntries raws mon k) := by
  rw [build, build_foldl mon k raws []]
  rfl

/-- C7: if the record-listing fetch returns an error outcome (every
failure kind collapses to `None` in `get_dnspod_records`), the check
cycle produces zero ChangeEvents, zero notification attempts, and leaves
the Baseline exactly as it was: the comparison is never reached
(lines 124-126). -/
theorem C7_theorem (notifier : ChangeEvent → TgResponse) (resp : DnspodResponse)
    (mon : List String) (prev : Snapshot) (h : get_dnspod_records resp = none) :
    check_for_changes notifier resp mon prev = ⟨[], [], prev⟩ := by
  rw [check_for_changes, h]

theorem C7_witness :
    get_dnspod_records .netError = none ∧
    check_for_changes (fun _ => .response 200 true) .netError ["www"]
      [("www", [⟨"A", "1.1.1.1"⟩])] = ⟨[], [], [("www", [⟨"A", "1.1.1.1"⟩])]⟩ :=
  ⟨rfl, C7_theorem (fun _ => .response 200 true) .netError ["www"]
    [("www", [⟨"A", "1.1.1.1"⟩])] rfl⟩

/-- C8: the outcome of the notifier (network error or any non-success
API response, both handled inside `send_telegram_message`) influences
neither the emitted ChangeEvents nor the stored Baseline, and every
emitted event gets its own notification attempt (in order): processing
of remaining events is never aborted. -/
theorem C8_theorem (prev current : Snapshot) (n1 n2 : ChangeEvent → TgResponse) :
    (runDetect n1 prev current).events = (runDetect n2 prev current).events ∧
    (runDetect n1 prev current).newBaseline = (runDetect n2 prev current).newBaseline ∧
    (runDetect n1 prev current).notified.map Prod.fst = (runDetect n1 prev current).events := by
  rw [runDetect_eq n1, runDetect_eq n2]
  refine ⟨rfl, rfl, ?_⟩
  rw [List.map_map]
  rw [show (Prod.fst ∘ fun ev => (ev, send_telegram_message (n1 ev))) = id from rfl]
  exact List.map_id _

/-- C9: building from partial records fails (a `KeyError` propagates)
exactly when some record lacks `name`, or bears a monitored name and
lacks `type` or `value`: the `type`/`value` fields are read only for
records whose name is monitored, while `name` is read for every
record. -/
theorem C9_theorem (raws : List RawRecordOpt) (mon : List String) :
    build_opt mon [] raws = none ↔
      ∃ r ∈ raws, r.name = none ∨
        ∃ n, r.name = some n ∧ n ∈ mon ∧ (r.type = none ∨ r.value = none) :=
  build_opt_eq_none_iff mon raws []

/-- C10: the Baseline invariant — every stored entry has a monitored key
and a non-empty record list — is preserved by every check cycle: the
Baseline is only ever kept or replaced wholesale by a builder output,
and builder outputs satisfy the invariant. -/
theorem C10_theorem (mon : List String) (notifier : ChangeEvent → TgResponse)
    (resp : DnspodResponse) (prev : Snapshot) (h : Inv mon prev) :
    Inv mon ((check_for_changes notifier resp mon prev).newBaseline) := by
  rw [check_for_changes]
  cases hg : get_dnspod_records resp with
  | none => exact h
  | some raws =>
    show Inv mon (runDetect notifier prev (build raws mon)).newBaseline
    rw [runDetect_eq]
    by_cases hp : prev = []
    · subst hp
      rw [detect_nil]
      exact Inv_build raws mon
    · by_cases he : dictEqb (build raws mon) prev
      · rw [detect_eqb hp he]
        exact h
      · rw [detect_not_eqb hp (Bool.not_eq_true _ ▸ he)]
        exact Inv_build raws mon

theorem C10_witness :
    Inv ["www"] [("www", [⟨"A", "1.1.1.1"⟩])] ∧
    Inv ["www"] ((check_for_changes (fun _ => .response 200 true)
      (.apiStatus "1" [⟨"www", "A", "2.2.2.2"⟩]) ["www"]
      [("www", [⟨"A", "1.1.1.1"⟩])]).newBaseline) :=
  ⟨by decide,
    C10_theorem ["www"] (fun _ => .response 200 true)
      (.apiStatus "1" [⟨"www", "A", "2.2.2.2"⟩]) [("www", [⟨"A", "1.1.1.1"⟩])] (by decide)⟩

end DnspodMonitor
